import Mathlib

/-!
Shallow embedding of the `python-tilewe` tournament orchestrator
(`src/tilewe/tournament.py`) and engine contract (`src/tilewe/engine.py`).

Python exceptions are modelled by `Except PyExc`; Python `None` by `Option`;
floats (times, Elo ratings) by `Int` (times) and `ℚ` (ratings), since only
comparison and additive structure matter to the verified properties.
External collaborators (the game engine / board, the Elo updater
`compute_elo_adjustment_n`) are parameters of the definitions, matching the
spec's "interfaces only" treatment of them.
-/

namespace Tilewe

/-- Python exception values that the modelled code can raise. -/
inductive PyExc where
  | indexError
  | typeError
  | keyError
  | unboundLocal
  | engineError (msg : String)
  deriving DecidableEq, Repr

deriving instance DecidableEq for Except

/-- Python list indexing `l[i]`: value, or `IndexError`. -/
def listGetE (l : List α) (i : Nat) : Except PyExc α :=
  match l.get? i with
  | none => .error .indexError
  | some v => .ok v

/-- Python list assignment `l[i] = v`: updated list, or `IndexError`. -/
def listSetE (l : List α) (i : Nat) (v : α) : Except PyExc (List α) :=
  match l.get? i with
  | none => .error .indexError
  | some _ => .ok (l.set i v)

/-- Python `l[i] += 1` on a list of numbers. -/
def incAt (l : List Int) (i : Nat) : Except PyExc (List Int) :=
  match l.get? i with
  | none => .error .indexError
  | some v => .ok (l.set i (v + 1))

/-- Python `l[i] += d` on a list of numbers. -/
def addAt (l : List Int) (i : Nat) (d : Int) : Except PyExc (List Int) :=
  match l.get? i with
  | none => .error .indexError
  | some v => .ok (l.set i (v + d))

/-- Python `l[i] += d` on a list of floats (rationals in the model). -/
def addAtQ (l : List ℚ) (i : Nat) (d : ℚ) : Except PyExc (List ℚ) :=
  match l.get? i with
  | none => .error .indexError
  | some v => .ok (l.set i (v + d))

/-- Unwrap an `Option`, raising the given exception on `none`
(models Python operations that fail on `None` / unbound locals). -/
def req (e : PyExc) : Option α → Except PyExc α
  | none => .error e
  | some a => .ok a

/-! ## Engine contract (`src/tilewe/engine.py`, class `Engine`) -/

/-- The mutable state of an `Engine` instance: its name plus the
time-budget bookkeeping fields set by `search`. -/
structure EngineState where
  name : String
  seconds : Int
  end_at : Int
  deriving DecidableEq, Repr

/-- The method `Engine.out_of_time`: `time.time() >= self.end_at`, with the current
clock reading passed explicitly. -/
def out_of_time (e : EngineState) (now : Int) : Bool :=
  decide (e.end_at ≤ now)

/-- The method `Engine.search(board, seconds)`: records `end_at = now + seconds` and
`seconds`, then delegates to `on_search` (passed as a function of the
already-updated engine state, the board and the budget). Returns the
updated state and `on_search`'s result. -/
def search (e : EngineState) (now : Int) (board : β) (seconds : Int)
    (on_search : EngineState → β → Int → μ) : EngineState × μ :=
  let e' : EngineState := { e with end_at := now + seconds, seconds := seconds }
  (e', on_search e' board seconds)

/-! ## Match Runner (`Tournament._play_game`, src/tilewe/tournament.py 355-397)

The game engine (`tilewe.Board`) is an external collaborator; it is a
parameter of the runner, packaged as the interface the spec lists in §6.
An engine's `search` call may raise (`Except`). -/

/-- The external game-engine interface used by `_play_game`:
construct a position for `n` players, test for terminal state, report
whose turn it is, apply a move, copy the state, and read terminal
winners / scores (participant-local) and the player count. -/
structure GameIface (B M : Type) where
  init : Nat → B
  finished : B → Bool
  current_player : B → Nat
  push : B → M → B
  winners : B → List Nat
  scores : B → List Int
  n_players : B → Nat
  copy_current_state : B → B

/-- One engine's `search` as seen by the runner: given a board copy and the
per-move seconds, either return a move or raise. -/
def EngineFun (B M : Type) : Type := B → Int → Except PyExc M

/-- The `while not board.finished` loop of `_play_game`, with fuel.
`none` means the loop did not terminate within the fuel;
`some (.error e)` means some call in the loop body raised `e`;
`some (.ok b)` means the loop exited normally with final board `b`.
Out-of-range indexing of `player_to_engine` or `self.engines` raises,
as in Python. -/
def gameLoop (g : GameIface B M) (engines : List (EngineFun B M))
    (player_to_engine : List Nat) (seconds : Int) :
    Nat → B → Option (Except PyExc B)
  | 0, b => if g.finished b then some (.ok b) else none
  | fuel + 1, b =>
    if g.finished b then some (.ok b)
    else
      match (listGetE player_to_engine (g.current_player b)).bind (listGetE engines) with
      | .error e => some (.error e)
      | .ok eng =>
        match eng (g.copy_current_state b) seconds with
        | .error e => some (.error e)
        | .ok m => gameLoop g engines player_to_engine seconds fuel (g.push b m)

/-- The dict comprehension building `engine_to_player` from
`enumerate(player_to_engine)`: maps a global engine index to the
turn-order slot holding it; on duplicates the later (larger) slot wins,
as with a Python dict. -/
def engine_to_player (player_to_engine : List Nat) (i : Nat) : Option Nat :=
  (List.range player_to_engine.length).reverse.find?
    (fun k => player_to_engine.get? k == some i)

/-- A Python list comprehension whose body may raise: evaluate left to
right, aborting at the first exception. -/
def mapME (f : α → Except PyExc β) : List α → Except PyExc (List β)
  | [] => .ok []
  | x :: xs => do
    let y ← f x
    let ys ← mapME f xs
    .ok (y :: ys)

/-- The remap `winners = [player_to_engine[x] for x in board.winners]`. -/
def remapWinners (player_to_engine : List Nat) (winnersLocal : List Nat) :
    Except PyExc (List Nat) :=
  mapME (listGetE player_to_engine) winnersLocal

/-- The remap `scores = [board.scores[engine_to_player[i]] if i in engine_to_player else 0
for i in range(len(self.engines))]`. -/
def remapScores (nEngines : Nat) (player_to_engine : List Nat)
    (scoresLocal : List Int) : Except PyExc (List Int) :=
  mapME (fun i =>
    match engine_to_player player_to_engine i with
    | some k => listGetE scoresLocal k
    | none => .ok 0) (List.range nEngines)

/-- The tuple `_play_game` returns: on success all `Option` fields are
`some`; on a caught exception it is `([], None, None, None, None)`. -/
structure Outcome where
  winners : List Nat
  scores : Option (List Int)
  boardNPlayers : Option Nat
  player_to_engine : Option (List Nat)
  time_sec : Option Int
  deriving DecidableEq, Repr

/-- The failure tuple `return [], None, None, None, None`. -/
def failOutcome : Outcome := ⟨[], none, none, none, none⟩

/-- The runner `Tournament._play_game(player_to_engine)`: build a fresh board sized to
the participant count, run the game loop, and on normal completion remap
winners and scores back to global engine indices. Any exception raised
inside the `try` block (engine searches, pushes, the remapping) is caught
and yields `failOutcome`. `elapsed` is the externally-read wall time;
`none` overall means the loop never terminated (no fuel bound reached it). -/
def play_game (g : GameIface B M) (engines : List (EngineFun B M))
    (nEngines : Nat) (player_to_engine : List Nat) (seconds : Int)
    (fuel : Nat) (elapsed : Int) : Option Outcome :=
  match gameLoop g engines player_to_engine seconds fuel
      (g.init player_to_engine.length) with
  | none => none
  | some (.error _) => some failOutcome
  | some (.ok b) =>
    match remapWinners player_to_engine (g.winners b),
          remapScores nEngines player_to_engine (g.scores b) with
    | .ok ws, .ok ss =>
      some ⟨ws, some ss, some (g.n_players b), some player_to_engine, some elapsed⟩
    | .error _, _ => some failOutcome
    | _, .error _ => some failOutcome

/-! ## Configuration validation (`Tournament.__init__` 175-194, `Tournament.play` 224-233) -/

/-- The constructor guard clauses of `Tournament` (engines, move_seconds), then
the stored fields `(engines count, _seconds)`. `raise Exception(msg)` is
modelled by `Except String`. -/
def tournament_init (nEngines : Nat) (move_seconds : Int) :
    Except String (Nat × Int) :=
  if nEngines < 1 then
    .error "Number of engines must be greater than 0"
  else if move_seconds ≤ 0 then
    .error "Must allow greater than 0 seconds per move"
  else
    .ok (nEngines, move_seconds)

/-- The guard clauses at the top of `Tournament.play` (lines 224-233),
returning the effective `move_seconds` on success. `default_seconds` is
the stored `self._seconds`. -/
def playValidate (default_seconds : Int) (n_games n_threads players_per_game : Int)
    (move_seconds : Option Int) : Except String Int :=
  if n_games ≤ 0 then
    .error "Must play at least one game"
  else if n_threads ≤ 0 then
    .error "Must use at least one thread"
  else if players_per_game < 1 ∨ players_per_game > 4 then
    .error "Must have 1 to 4 players per game"
  else
    let secs := move_seconds.getD default_seconds
    if secs ≤ 0 then
      .error "Must allow greater than 0 seconds per move"
    else
      .ok secs

/-- Job generation in `play` (lines 263-268): for each game, shuffle
`list(range(N))` and truncate to the first `players_per_game` entries.
The random shuffles are passed in as the list `perms`: one permutation of
`range N` per game. -/
def makeJobs (players_per_game : Nat) (perms : List (List Nat)) : List (List Nat) :=
  perms.map (fun order => order.take players_per_game)

/-- The opening of `Tournament.play` up to just after job generation: validates
first, and only on success produces the effective seconds together with
the generated job list; on a validation failure the whole call raises and
no job list exists. -/
def playSetup (default_seconds : Int) (n_games n_threads players_per_game : Int)
    (move_seconds : Option Int) (perms : List (List Nat)) :
    Except String (Int × List (List Nat)) :=
  (playValidate default_seconds n_games n_threads players_per_game move_seconds).map
    (fun secs => (secs, makeJobs players_per_game.toNat perms))

/-! ## Standings aggregation (`Tournament.play` loop body, lines 281-330)

The loop consumes `_play_game` result tuples in completion order. All
counter mutation in the tournament happens here. The Python locals
`player_elos`, `delta_elos`, `new_elos` are assigned only inside the
`if board.n_players > 1` branch, so the state carries them as `Option`s
(`none` = not yet bound; reading them then raises `UnboundLocalError`). -/

/-- The dataclass `MatchData` (tournament.py lines 13-42), with the final board
abstracted to its player count. -/
structure MatchData where
  boardNPlayers : Nat
  engines : List Nat
  player_to_engine : List Nat
  run_time : Int
  elo_start : List ℚ
  elo_delta : List ℚ
  elo_end : List ℚ
  deriving DecidableEq, Repr

/-- The mutable local state of `Tournament.play`'s aggregation loop. -/
structure PlayState where
  total_games : Nat
  wins : List Int
  games : List Int
  elos : List ℚ
  totals : List Int
  total_time : Int
  match_results : List MatchData
  playerElosLocal : Option (List ℚ)
  deltaElosLocal : Option (List ℚ)
  newElosLocal : Option (List ℚ)
  deriving DecidableEq, Repr

/-- The trackers initialised at lines 236-244 for a roster of `n` engines. -/
def initState (n : Nat) : PlayState :=
  { total_games := 0
    wins := List.replicate n 0
    games := List.replicate n 0
    elos := List.replicate n 0
    totals := List.replicate n 0
    total_time := 0
    match_results := []
    playerElosLocal := none
    deltaElosLocal := none
    newElosLocal := none }

/-- The loop `for p in player_to_engine: games[p] += 1` (also used for the wins
loop over `winners`). -/
def bumpAll (l : List Int) : List Nat → Except PyExc (List Int)
  | [] => .ok l
  | p :: rest => do
    let l' ← incAt l p
    bumpAll l' rest

/-- The loop `for p, s in enumerate(scores): totals[p] += s`, starting at index `k`. -/
def addEnumFrom (t : List Int) (k : Nat) : List Int → Except PyExc (List Int)
  | [] => .ok t
  | s :: rest => do
    let t' ← addAt t k s
    addEnumFrom t' (k + 1) rest

/-- The comprehension `[l[i] for i in idxs]` with Python indexing. -/
def mapGetE (l : List α) (idxs : List Nat) : Except PyExc (List α) :=
  mapME (listGetE l) idxs

/-- The loop `for index, player in enumerate(game_players): elos[player] += delta_elos[index]`,
starting at `index = k`. -/
def applyDeltasFrom (elos : List ℚ) (delta_elos : List ℚ) (k : Nat) :
    List Nat → Except PyExc (List ℚ)
  | [] => .ok elos
  | player :: rest => do
    let d ← listGetE delta_elos k
    let elos' ← addAtQ elos player d
    applyDeltasFrom elos' delta_elos (k + 1) rest

/-- The Elo-update section of the loop body (lines 298-304): only run for
`board.n_players > 1`; computes `player_elos`, `delta_elos = eloFn ...`,
applies the deltas in place, and reads back `new_elos`. Returns the
updated `elos` array together with the three loop-local variables
(`player_elos`, `delta_elos`, `new_elos`), which keep their previous
(possibly unbound) values when the branch is skipped. -/
def eloPhase (eloFn : List ℚ → List Int → List ℚ) (st : PlayState)
    (game_players : List Nat) (player_scores : List Int) (nP : Nat) :
    Except PyExc (List ℚ × Option (List ℚ) × Option (List ℚ) × Option (List ℚ)) :=
  if 1 < nP then do
    let player_elos ← mapGetE st.elos game_players
    let elos' ← applyDeltasFrom st.elos (eloFn player_elos player_scores) 0 game_players
    let new_elos ← mapGetE elos' game_players
    .ok (elos', some player_elos, some (eloFn player_elos player_scores), some new_elos)
  else
    .ok (st.elos, st.playerElosLocal, st.deltaElosLocal, st.newElosLocal)

/-- One iteration of the result-consuming loop in `play` (lines 281-330):
fold one received `_play_game` tuple into the running state.
`eloFn` is the external `compute_elo_adjustment_n`; `names` the engine
names (used for the printed lines, whose indexing can still raise).
Reading the three Elo loop-locals while still unbound raises
`UnboundLocalError`, as in Python. An outcome with an empty winner list
only prints a notice (line 330). -/
def processOutcome (eloFn : List ℚ → List Int → List ℚ) (names : List String)
    (st : PlayState) (out : Outcome) : Except PyExc PlayState :=
  if out.winners.length > 0 then do
    let p2e ← req .typeError out.player_to_engine
    let games' ← bumpAll st.games p2e
    let wins' ← bumpAll st.wins out.winners
    let scores ← req .typeError out.scores
    let totals' ← addEnumFrom st.totals 0 scores
    let t ← req .typeError out.time_sec
    let nP ← req .typeError out.boardNPlayers
    let game_players ← mapGetE p2e (List.range nP)
    let _player_names ← mapGetE names game_players
    let player_scores ← mapGetE scores game_players
    let _winner_names ← mapGetE names out.winners
    let ep ← eloPhase eloFn st game_players player_scores nP
    let player_elos ← req .unboundLocal ep.2.1
    let delta_elos ← req .unboundLocal ep.2.2.1
    let new_elos ← req .unboundLocal ep.2.2.2
    .ok { total_games := st.total_games + 1
          wins := wins'
          games := games'
          elos := ep.1
          totals := totals'
          total_time := st.total_time + t
          match_results := st.match_results ++
            [⟨nP, game_players, p2e, t, player_elos, delta_elos, new_elos⟩]
          playerElosLocal := ep.2.1
          deltaElosLocal := ep.2.2.1
          newElosLocal := ep.2.2.2 }
  else
    .ok st

/-- The whole consuming loop over a completion-ordered list of outcomes. -/
def foldOutcomes (eloFn : List ℚ → List Int → List ℚ) (names : List String)
    (st : PlayState) (outs : List Outcome) : Except PyExc PlayState :=
  outs.foldlM (processOutcome eloFn names) st

/-! ## Tournament result record (`TournamentResults`, tournament.py 44-154) -/

/-- The dataclass `TournamentResults` (its fields). Elo floats are rationals;
times are integers. -/
structure TournamentResults where
  match_data : List MatchData
  engine_names : List String
  game_counts : List Int
  win_counts : List Int
  total_scores : List Int
  elo_start : List ℚ
  elo_end : List ℚ
  real_time : Int
  total_time : Int
  deriving DecidableEq, Repr

/-- Building the final `TournamentResults` from the loop state
(lines 337-347). -/
def mkResults (st : PlayState) (names : List String) (initial_elos : List ℚ)
    (real_time : Int) : TournamentResults :=
  ⟨st.match_results, names, st.games, st.wins, st.totals, initial_elos,
    st.elos, real_time, st.total_time⟩

def total_games (r : TournamentResults) : Nat := r.match_data.length

def total_engines (r : TournamentResults) : Nat := r.engine_names.length

/-- The property `win_rates`: `win_counts[i] / max(1, game_counts[i])` over the roster. -/
def win_rates (r : TournamentResults) : List ℚ :=
  (List.range (total_engines r)).map (fun i =>
    (r.win_counts.getD i 0 : ℚ) / ((max 1 (r.game_counts.getD i 0) : Int) : ℚ))

/-- The property `avg_scores`: `total_scores[i] / max(1, game_counts[i])` over the roster. -/
def avg_scores (r : TournamentResults) : List ℚ :=
  (List.range (total_engines r)).map (fun i =>
    (r.total_scores.getD i 0 : ℚ) / ((max 1 (r.game_counts.getD i 0) : Int) : ℚ))

/-- The property `average_match_duration`: `total_time / max(1, total_games)`. -/
def average_match_duration (r : TournamentResults) : ℚ :=
  (r.total_time : ℚ) / ((max 1 (total_games r : Int) : Int) : ℚ)

def get_win_rate_by_engine (r : TournamentResults) (engine : Nat) : ℚ :=
  (r.win_counts.getD engine 0 : ℚ) / ((max 1 (r.game_counts.getD engine 0) : Int) : ℚ)

def get_avg_score_by_engine (r : TournamentResults) (engine : Nat) : ℚ :=
  (r.total_scores.getD engine 0 : ℚ) / ((max 1 (r.game_counts.getD engine 0) : Int) : ℚ)

/-! ## Rankings display (`get_engine_rankings_display`, tournament.py 130-154)

Python's `hasattr`/`getattr` reflection over the dataclass is modelled by a
table of the public attributes, properties and methods, each tagged with
its runtime type so that the `isinstance` guards can be evaluated. -/

/-- A value produced by `getattr(self, sort_by)`. -/
inductive AttrVal where
  | listMatch (l : List MatchData)
  | listStr (l : List String)
  | listInt (l : List Int)
  | listRat (l : List ℚ)
  | intVal (n : Int)
  | ratVal (q : ℚ)
  | methodVal
  deriving DecidableEq

/-- The attribute table of a `TournamentResults` instance: dataclass
fields, `@property` accessors and public methods. `none` models
`hasattr` returning `False`. -/
def getattrModel (r : TournamentResults) : String → Option AttrVal
  | "match_data" => some (.listMatch r.match_data)
  | "engine_names" => some (.listStr r.engine_names)
  | "game_counts" => some (.listInt r.game_counts)
  | "win_counts" => some (.listInt r.win_counts)
  | "total_scores" => some (.listInt r.total_scores)
  | "elo_start" => some (.listRat r.elo_start)
  | "elo_end" => some (.listRat r.elo_end)
  | "real_time" => some (.ratVal (r.real_time : ℚ))
  | "total_time" => some (.ratVal (r.total_time : ℚ))
  | "total_games" => some (.intVal (total_games r : Int))
  | "total_engines" => some (.intVal (total_engines r : Int))
  | "win_rates" => some (.listRat (win_rates r))
  | "avg_scores" => some (.listRat (avg_scores r))
  | "average_match_duration" => some (.ratVal (average_match_duration r))
  | "get_matches_by_engine" => some .methodVal
  | "get_game_count_by_engine" => some .methodVal
  | "get_wins_by_engine" => some .methodVal
  | "get_win_rate_by_engine" => some .methodVal
  | "get_score_by_engine" => some .methodVal
  | "get_avg_score_by_engine" => some .methodVal
  | "get_starting_elo_by_engine" => some .methodVal
  | "get_ending_elo_by_engine" => some .methodVal
  | "get_delta_elo_by_engine" => some .methodVal
  | "get_engine_rankings_display" => some .methodVal
  | _ => none

/-- The check `isinstance(sort_attr, list)`. -/
def isListAttr : AttrVal → Bool
  | .listMatch _ => true
  | .listStr _ => true
  | .listInt _ => true
  | .listRat _ => true
  | _ => false

/-- The length `len(sort_attr)` for list-typed attributes (0 otherwise; only read
after the list check succeeds). -/
def attrLen : AttrVal → Nat
  | .listMatch l => l.length
  | .listStr l => l.length
  | .listInt l => l.length
  | .listRat l => l.length
  | _ => 0

/-- The check `isinstance(sort_attr[0], int) or isinstance(sort_attr[0], float)`,
together with the numeric contents when they pass: the sort keys. -/
def numericKeys : AttrVal → Option (List ℚ)
  | .listInt l => some (l.map (fun n => (n : ℚ)))
  | .listRat l => some l
  | _ => none

def invalidFieldMsg1 (sort_by : String) : String :=
  "Invalid sort field " ++ sort_by ++ ", must specify a valid TournamentResults property"

def invalidFieldMsg2 (sort_by : String) : String :=
  "Invalid sort field " ++ sort_by ++ ", must specify a list of length >0"

def invalidFieldMsg3 (sort_by : String) : String :=
  "Invalid sort field " ++ sort_by ++ ", must specify a numeric list"

def invalidDirMsg (sort_dir : String) : String :=
  "Invalid sort direction " ++ sort_dir ++ ", try asc or desc"

/-- The table rows of the success path (lines 145-153), one line per
engine in ranked order; Python's format-specifier widths are abstracted to
plain rendering, `"-"` placeholders for zero-game engines kept. -/
def rankingRows (r : TournamentResults) : Nat → List Nat → String
  | _, [] => ""
  | rank, engine :: rest =>
    let name := r.engine_names.getD engine ""
    let wins := r.win_counts.getD engine 0
    let games := r.game_counts.getD engine 0
    let score := r.total_scores.getD engine 0
    let elo := r.elo_end.getD engine 0
    let win_rate := if 0 < games then toString ((wins * 100 : ℚ) / (games : ℚ)) ++ "%" else "-"
    let avg_score := if 0 < games then toString ((score : ℚ) / (games : ℚ)) else "-"
    toString rank ++ " " ++ name ++ " " ++ toString elo ++ " " ++ toString games
      ++ " " ++ toString score ++ " " ++ avg_score ++ " " ++ toString wins
      ++ " " ++ win_rate ++ "\n" ++ rankingRows r (rank + 1) rest

/-- The success path: header plus rows for
`sorted(range(len(engine_names)), key=lambda x: dir * sort_attr[x])`. -/
def successDisplay (r : TournamentResults) (sort_by sort_dir : String)
    (keys : List ℚ) : String :=
  let dir : ℚ := if sort_dir = "desc" then -1 else 1
  let ranked := (List.range r.engine_names.length).mergeSort
    (fun a b => decide (dir * keys.getD a 0 ≤ dir * keys.getD b 0))
  "Ranking by " ++ sort_by ++ " " ++ sort_dir ++ ":\n"
    ++ "Rank Name Elo Games Score Avg Score Wins Win Rate\n"
    ++ rankingRows r 0 ranked

/-- The method `get_engine_rankings_display(sort_by, sort_dir)`: the guard clauses
followed by the ranking table. Returns the string together with the
(unmodified) record, making the absence of mutation explicit. -/
def get_engine_rankings_display (r : TournamentResults)
    (sort_by sort_dir : String) : String × TournamentResults :=
  match getattrModel r sort_by with
  | none => (invalidFieldMsg1 sort_by, r)
  | some a =>
    if ¬ isListAttr a ∨ attrLen a = 0 then (invalidFieldMsg2 sort_by, r)
    else match numericKeys a with
      | none => (invalidFieldMsg3 sort_by, r)
      | some keys =>
        if sort_dir ≠ "asc" ∧ sort_dir ≠ "desc" then (invalidDirMsg sort_dir, r)
        else (successDisplay r sort_by sort_dir keys, r)

/-! ## Helper lemmas about the embedding's building blocks -/

theorem ok_bind (a : α) (f : α → Except PyExc β) :
    ((Except.ok a : Except PyExc α) >>= f) = f a := rfl

theorem error_bind (e : PyExc) (f : α → Except PyExc β) :
    ((Except.error e : Except PyExc α) >>= f) = Except.error e := rfl

theorem req_ok_iff {e : PyExc} {o : Option α} {a : α} :
    req e o = .ok a ↔ o = some a := by
  cases o <;> simp [req]

theorem listGetE_ok_iff {l : List α} {i : Nat} {v : α} :
    listGetE l i = .ok v ↔ l.get? i = some v := by
  unfold listGetE
  cases h : l.get? i <;> simp

theorem listGetE_total {l : List α} {i : Nat} (h : i < l.length) :
    ∃ v, listGetE l i = .ok v ∧ l.get? i = some v := by
  cases hg : l.get? i with
  | none =>
    rw [List.get?_eq_none] at hg
    omega
  | some v =>
    refine ⟨v, ?_, rfl⟩
    unfold listGetE
    rw [hg]

theorem get?_mem_of_eq_some {l : List α} {i : Nat} {a : α}
    (h : l.get? i = some a) : a ∈ l := by
  obtain ⟨hlt, rfl⟩ := List.get?_eq_some.1 h
  exact List.get_mem l i hlt

theorem sum_set_int : ∀ (l : List Int) (i : Nat) (v a : Int),
    l.get? i = some v → (l.set i a).sum = l.sum - v + a := by
  intro l
  induction l with
  | nil => intro i v a h; simp at h
  | cons x xs ih =>
    intro i v a h
    cases i with
    | zero =>
      simp only [List.get?] at h
      injection h with h
      subst h
      simp [List.set]
      ring
    | succ n =>
      simp only [List.get?] at h
      have := ih n v a h
      simp [List.set, this]
      ring

theorem incAt_ok {l l' : List Int} {i : Nat} (h : incAt l i = .ok l') :
    l'.sum = l.sum + 1 ∧ l'.length = l.length ∧
      ∀ j, j ≠ i → l'.get? j = l.get? j := by
  unfold incAt at h
  cases hg : l.get? i with
  | none => rw [hg] at h; cases h
  | some v =>
    rw [hg] at h
    cases h
    refine ⟨?_, by simp, ?_⟩
    · rw [sum_set_int l i v _ hg]; ring
    · intro j hj
      exact List.get?_set_ne _ _ (fun hh => hj hh.symm)

theorem addAt_ok {l l' : List Int} {i : Nat} {d : Int} (h : addAt l i d = .ok l') :
    l'.length = l.length ∧ (∀ j, j ≠ i → l'.get? j = l.get? j) ∧
      (d = 0 → ∀ j, l'.get? j = l.get? j) := by
  unfold addAt at h
  cases hg : l.get? i with
  | none => rw [hg] at h; cases h
  | some v =>
    rw [hg] at h
    cases h
    refine ⟨by simp, ?_, ?_⟩
    · intro j hj
      exact List.get?_set_ne _ _ (fun hh => hj hh.symm)
    · intro hd j
      subst hd
      by_cases hj : j = i
      · subst hj
        rw [List.get?_set_eq, hg]
        simp
      · exact List.get?_set_ne _ _ (fun hh => hj hh.symm)

theorem addAtQ_ok {l l' : List ℚ} {i : Nat} {d : ℚ} (h : addAtQ l i d = .ok l') :
    l'.length = l.length ∧ ∀ j, j ≠ i → l'.get? j = l.get? j := by
  unfold addAtQ at h
  cases hg : l.get? i with
  | none => rw [hg] at h; cases h
  | some v =>
    rw [hg] at h
    cases h
    refine ⟨by simp, ?_⟩
    intro j hj
    exact List.get?_set_ne _ _ (fun hh => hj hh.symm)

theorem bumpAll_ok : ∀ {idxs : List Nat} {l l' : List Int},
    bumpAll l idxs = .ok l' →
    l'.sum = l.sum + (idxs.length : Int) ∧ l'.length = l.length ∧
      ∀ j, j ∉ idxs → l'.get? j = l.get? j := by
  intro idxs
  induction idxs with
  | nil =>
    intro l l' h
    cases h
    simp
  | cons p rest ih =>
    intro l l' h
    unfold bumpAll at h
    cases hi : incAt l p with
    | error e => rw [hi, error_bind] at h; cases h
    | ok l1 =>
      rw [hi, ok_bind] at h
      obtain ⟨hs, hl, hf⟩ := ih h
      obtain ⟨hs1, hl1, hf1⟩ := incAt_ok hi
      refine ⟨?_, by omega, ?_⟩
      · rw [hs, hs1, List.length_cons]
        push_cast
        ring
      · intro j hj
        have hjp : j ≠ p := fun hh => hj (hh ▸ List.mem_cons_self p rest)
        have hjr : j ∉ rest := fun hh => hj (List.mem_cons_of_mem _ hh)
        rw [hf j hjr, hf1 j hjp]

theorem addEnumFrom_frame : ∀ {sc t t' : List Int} {k : Nat},
    addEnumFrom t k sc = .ok t' →
    ∀ j, (∀ i s, sc.get? i = some s → k + i = j → s = 0) →
      t'.get? j = t.get? j := by
  intro sc
  induction sc with
  | nil =>
    intro t t' k h j _
    cases h
    rfl
  | cons s rest ih =>
    intro t t' k h j hz
    unfold addEnumFrom at h
    cases ha : addAt t k s with
    | error e => rw [ha, error_bind] at h; cases h
    | ok t1 =>
      rw [ha, ok_bind] at h
      have tail : t'.get? j = t1.get? j :=
        ih h j (fun i s' hg hk => hz (i + 1) s' (by simpa using hg) (by omega))
      have step : t1.get? j = t.get? j := by
        by_cases hkj : k = j
        · have hs0 : s = 0 := hz 0 s rfl (by omega)
          subst hs0
          exact (addAt_ok ha).2.2 rfl j
        · exact (addAt_ok ha).2.1 j (fun hh => hkj hh.symm)
      rw [tail, step]

theorem applyDeltasFrom_frame : ∀ {players : List Nat} {elos elos' dE : List ℚ} {k : Nat},
    applyDeltasFrom elos dE k players = .ok elos' →
    ∀ j, j ∉ players → elos'.get? j = elos.get? j := by
  intro players
  induction players with
  | nil =>
    intro elos elos' dE k h j _
    cases h
    rfl
  | cons p rest ih =>
    intro elos elos' dE k h j hj
    unfold applyDeltasFrom at h
    cases hd : listGetE dE k with
    | error e => rw [hd, error_bind] at h; cases h
    | ok d =>
      rw [hd, ok_bind] at h
      cases ha : addAtQ elos p d with
      | error e => rw [ha, error_bind] at h; cases h
      | ok e1 =>
        rw [ha, ok_bind] at h
        have hjp : j ≠ p := fun hh => hj (hh ▸ List.mem_cons_self p rest)
        have hjr : j ∉ rest := fun hh => hj (List.mem_cons_of_mem _ hh)
        rw [ih h j hjr, (addAtQ_ok ha).2 j hjp]

theorem mapME_ok_length {f : α → Except PyExc β} : ∀ {l : List α} {ys : List β},
    mapME f l = .ok ys → ys.length = l.length := by
  intro l
  induction l with
  | nil => intro ys h; cases h; rfl
  | cons x xs ih =>
    intro ys h
    unfold mapME at h
    cases hx : f x with
    | error e => rw [hx, error_bind] at h; cases h
    | ok y =>
      rw [hx, ok_bind] at h
      cases hxs : mapME f xs with
      | error e => rw [hxs, error_bind] at h; cases h
      | ok ys' =>
        rw [hxs, ok_bind] at h
        cases h
        simp [ih hxs]

theorem mapME_ok_mem {f : α → Except PyExc β} : ∀ {l : List α} {ys : List β},
    mapME f l = .ok ys → ∀ y ∈ ys, ∃ x ∈ l, f x = .ok y := by
  intro l
  induction l with
  | nil => intro ys h; cases h; intro y hy; simp at hy
  | cons x xs ih =>
    intro ys h
    unfold mapME at h
    cases hx : f x with
    | error e => rw [hx, error_bind] at h; cases h
    | ok y0 =>
      rw [hx, ok_bind] at h
      cases hxs : mapME f xs with
      | error e => rw [hxs, error_bind] at h; cases h
      | ok ys' =>
        rw [hxs, ok_bind] at h
        cases h
        intro y hy
        rcases List.mem_cons.1 hy with rfl | hy'
        · exact ⟨x, List.mem_cons_self x xs, hx⟩
        · obtain ⟨x', hx', hfx'⟩ := ih hxs y hy'
          exact ⟨x', List.mem_cons_of_mem _ hx', hfx'⟩

theorem mapME_ok_get? {f : α → Except PyExc β} : ∀ {l : List α} {ys : List β},
    mapME f l = .ok ys → ∀ {i : Nat} {x : α}, l.get? i = some x →
      ∃ y, ys.get? i = some y ∧ f x = .ok y := by
  intro l
  induction l with
  | nil => intro ys h i x hg; simp at hg
  | cons a as ih =>
    intro ys h i x hg
    unfold mapME at h
    cases hx : f a with
    | error e => rw [hx, error_bind] at h; cases h
    | ok y0 =>
      rw [hx, ok_bind] at h
      cases hxs : mapME f as with
      | error e => rw [hxs, error_bind] at h; cases h
      | ok ys' =>
        rw [hxs, ok_bind] at h
        cases h
        cases i with
        | zero =>
          simp only [List.get?] at hg
          injection hg with hg
          subst hg
          exact ⟨y0, rfl, hx⟩
        | succ n =>
          simp only [List.get?] at hg
          obtain ⟨y, hy, hfy⟩ := ih hxs hg
          exact ⟨y, by simpa using hy, hfy⟩

theorem mapME_total {f : α → Except PyExc β} : ∀ {l : List α},
    (∀ x ∈ l, ∃ y, f x = .ok y) → ∃ ys, mapME f l = .ok ys := by
  intro l
  induction l with
  | nil => intro _; exact ⟨[], rfl⟩
  | cons x xs ih =>
    intro htot
    obtain ⟨y, hy⟩ := htot x (List.mem_cons_self x xs)
    obtain ⟨ys, hys⟩ := ih (fun a ha => htot a (List.mem_cons_of_mem _ ha))
    exact ⟨y :: ys, by unfold mapME; rw [hy, ok_bind, hys, ok_bind]⟩

theorem engine_to_player_some {p2e : List Nat} {i k : Nat}
    (h : engine_to_player p2e i = some k) :
    k < p2e.length ∧ p2e.get? k = some i := by
  unfold engine_to_player at h
  have hm := List.mem_of_find?_eq_some h
  have hp := List.find?_some h
  refine ⟨?_, ?_⟩
  · exact List.mem_range.1 (List.mem_reverse.1 hm)
  · simpa using hp

theorem engine_to_player_none {p2e : List Nat} {i : Nat} (h : i ∉ p2e) :
    engine_to_player p2e i = none := by
  cases hk : engine_to_player p2e i with
  | none => rfl
  | some k =>
    obtain ⟨_, hget⟩ := engine_to_player_some hk
    exact absurd (get?_mem_of_eq_some hget) h

theorem remapWinners_ok {p2e wl : List Nat}
    (hlt : ∀ x ∈ wl, x < p2e.length) :
    ∃ ws, remapWinners p2e wl = .ok ws ∧ ws.length = wl.length ∧
      ∀ w ∈ ws, w ∈ p2e := by
  obtain ⟨ws, hws⟩ := mapME_total (f := listGetE p2e) (l := wl) (fun x hx => by
    obtain ⟨v, hv, _⟩ := listGetE_total (hlt x hx)
    exact ⟨v, hv⟩)
  refine ⟨ws, hws, mapME_ok_length hws, ?_⟩
  intro w hw
  obtain ⟨x, _, hfx⟩ := mapME_ok_mem hws w hw
  exact get?_mem_of_eq_some (listGetE_ok_iff.1 hfx)

theorem remapScores_ok {p2e : List Nat} {sl : List Int} (nE : Nat)
    (hlen : sl.length = p2e.length) :
    ∃ ss, remapScores nE p2e sl = .ok ss ∧ ss.length = nE ∧
      ∀ i, i < nE → i ∉ p2e → ss.get? i = some 0 := by
  obtain ⟨ss, hss⟩ := mapME_total
    (f := fun i => match engine_to_player p2e i with
      | some k => listGetE sl k
      | none => .ok 0)
    (l := List.range nE) (fun x _ => by
      cases hk : engine_to_player p2e x with
      | none => exact ⟨0, by show (match engine_to_player p2e x with
          | some k => listGetE sl k
          | none => .ok 0) = .ok 0; rw [hk]⟩
      | some k =>
        obtain ⟨hklt, _⟩ := engine_to_player_some hk
        obtain ⟨v, hv, _⟩ := listGetE_total (l := sl) (i := k) (by omega)
        exact ⟨v, by show (match engine_to_player p2e x with
          | some k => listGetE sl k
          | none => .ok 0) = .ok v; rw [hk]; exact hv⟩)
  refine ⟨ss, hss, by simpa using mapME_ok_length hss, ?_⟩
  intro i hi hmem
  obtain ⟨y, hy, hfy⟩ := mapME_ok_get? hss (List.get?_range hi)
  rw [engine_to_player_none hmem] at hfy
  cases hfy
  exact hy

theorem processOutcome_empty (eloFn : List ℚ → List Int → List ℚ)
    (names : List String) (st : PlayState) (out : Outcome)
    (h : out.winners = []) :
    processOutcome eloFn names st out = .ok st := by
  unfold processOutcome
  rw [if_neg]
  simp [h]

theorem eloPhase_inv {eloFn : List ℚ → List Int → List ℚ} {st : PlayState}
    {gps : List Nat} {ps : List Int} {nP : Nat}
    {ep : List ℚ × Option (List ℚ) × Option (List ℚ) × Option (List ℚ)}
    (h : eloPhase eloFn st gps ps nP = .ok ep) :
    (1 < nP ∧ ∃ dE, applyDeltasFrom st.elos dE 0 gps = .ok ep.1) ∨
      (¬ 1 < nP ∧ ep.1 = st.elos) := by
  unfold eloPhase at h
  by_cases hnp : 1 < nP
  · rw [if_pos hnp] at h
    cases h1 : mapGetE st.elos gps with
    | error e => rw [h1, error_bind] at h; cases h
    | ok player_elos =>
      rw [h1, ok_bind] at h
      cases h2 : applyDeltasFrom st.elos (eloFn player_elos ps) 0 gps with
      | error e => rw [h2, error_bind] at h; cases h
      | ok elos' =>
        rw [h2, ok_bind] at h
        cases h3 : mapGetE elos' gps with
        | error e => rw [h3, error_bind] at h; cases h
        | ok new_elos =>
          rw [h3, ok_bind] at h
          cases h
          exact Or.inl ⟨hnp, eloFn player_elos ps, h2⟩
  · rw [if_neg hnp] at h
    cases h
    exact Or.inr ⟨hnp, rfl⟩

theorem processOutcome_ok_inv {eloFn : List ℚ → List Int → List ℚ}
    {names : List String} {st : PlayState} {out : Outcome} {st' : PlayState}
    (h : processOutcome eloFn names st out = .ok st')
    (hw : out.winners ≠ []) :
    ∃ p2e scores nP games' wins' totals' gps,
      out.player_to_engine = some p2e ∧
      out.scores = some scores ∧
      out.boardNPlayers = some nP ∧
      bumpAll st.games p2e = .ok games' ∧ st'.games = games' ∧
      bumpAll st.wins out.winners = .ok wins' ∧ st'.wins = wins' ∧
      addEnumFrom st.totals 0 scores = .ok totals' ∧ st'.totals = totals' ∧
      mapGetE p2e (List.range nP) = .ok gps ∧
      ((1 < nP ∧ ∃ dE, applyDeltasFrom st.elos dE 0 gps = .ok st'.elos) ∨
        (¬ 1 < nP ∧ st'.elos = st.elos)) ∧
      st'.total_games = st.total_games + 1 := by
  unfold processOutcome at h
  rw [if_pos (List.length_pos.2 hw)] at h
  cases h1 : req .typeError out.player_to_engine with
  | error e => rw [h1, error_bind] at h; cases h
  | ok p2e =>
  rw [h1, ok_bind] at h
  cases h2 : bumpAll st.games p2e with
  | error e => rw [h2, error_bind] at h; cases h
  | ok games' =>
  rw [h2, ok_bind] at h
  cases h3 : bumpAll st.wins out.winners with
  | error e => rw [h3, error_bind] at h; cases h
  | ok wins' =>
  rw [h3, ok_bind] at h
  cases h4 : req .typeError out.scores with
  | error e => rw [h4, error_bind] at h; cases h
  | ok scores =>
  rw [h4, ok_bind] at h
  cases h5 : addEnumFrom st.totals 0 scores with
  | error e => rw [h5, error_bind] at h; cases h
  | ok totals' =>
  rw [h5, ok_bind] at h
  cases h6 : req .typeError out.time_sec with
  | error e => rw [h6, error_bind] at h; cases h
  | ok t =>
  rw [h6, ok_bind] at h
  cases h7 : req .typeError out.boardNPlayers with
  | error e => rw [h7, error_bind] at h; cases h
  | ok nP =>
  rw [h7, ok_bind] at h
  cases h8 : mapGetE p2e (List.range nP) with
  | error e => rw [h8, error_bind] at h; cases h
  | ok gps =>
  rw [h8, ok_bind] at h
  cases h9 : mapGetE names gps with
  | error e => rw [h9, error_bind] at h; cases h
  | ok pns =>
  rw [h9, ok_bind] at h
  cases h10 : mapGetE scores gps with
  | error e => rw [h10, error_bind] at h; cases h
  | ok pscores =>
  rw [h10, ok_bind] at h
  cases h11 : mapGetE names out.winners with
  | error e => rw [h11, error_bind] at h; cases h
  | ok wns =>
  rw [h11, ok_bind] at h
  cases h12 : eloPhase eloFn st gps pscores nP with
  | error e => rw [h12, error_bind] at h; cases h
  | ok ep =>
  rw [h12, ok_bind] at h
  cases h13 : req .unboundLocal ep.2.1 with
  | error e => rw [h13, error_bind] at h; cases h
  | ok player_elos =>
  rw [h13, ok_bind] at h
  cases h14 : req .unboundLocal ep.2.2.1 with
  | error e => rw [h14, error_bind] at h; cases h
  | ok delta_elos =>
  rw [h14, ok_bind] at h
  cases h15 : req .unboundLocal ep.2.2.2 with
  | error e => rw [h15, error_bind] at h; cases h
  | ok new_elos =>
  rw [h15, ok_bind] at h
  cases h
  refine ⟨p2e, scores, nP, games', wins', totals', gps,
    req_ok_iff.1 h1, req_ok_iff.1 h4, req_ok_iff.1 h7,
    h2, rfl, rfl, rfl, h5, rfl, h8, ?_, rfl⟩
  exact eloPhase_inv h12

/-- Folding one non-failed outcome touches no counter of an agent outside
its participant list. -/
theorem processOutcome_frame {eloFn : List ℚ → List Int → List ℚ}
    {names : List String} {st : PlayState} {out : Outcome} {st' : PlayState}
    {j : Nat} {p2e : List Nat} {sc : List Int}
    (hp2e : out.player_to_engine = some p2e)
    (hsc : out.scores = some sc)
    (hwsub : ∀ w ∈ out.winners, w ∈ p2e)
    (hscz : ∀ k s, sc.get? k = some s → k ∉ p2e → s = 0)
    (hj : j ∉ p2e)
    (h : processOutcome eloFn names st out = .ok st') :
    st'.games.get? j = st.games.get? j ∧
    st'.wins.get? j = st.wins.get? j ∧
    st'.totals.get? j = st.totals.get? j ∧
    st'.elos.get? j = st.elos.get? j := by
  by_cases hw : out.winners = []
  · rw [processOutcome_empty _ _ _ _ hw] at h
    cases h
    exact ⟨rfl, rfl, rfl, rfl⟩
  · obtain ⟨p2e', scores', nP, games', wins', totals', gps, he1, he2, _he3,
      hbg, hg, hbw, hwn, hae, ht, hmg, helos, _⟩ := processOutcome_ok_inv h hw
    rw [hp2e] at he1
    injection he1 with he1
    subst he1
    rw [hsc] at he2
    injection he2 with he2
    subst he2
    refine ⟨?_, ?_, ?_, ?_⟩
    · rw [hg]
      exact (bumpAll_ok hbg).2.2 j hj
    · rw [hwn]
      exact (bumpAll_ok hbw).2.2 j (fun hm => hj (hwsub j hm))
    · rw [ht]
      exact addEnumFrom_frame hae j (fun i s hg0 hk => hscz i s hg0 (by
        have : i = j := by omega
        exact this ▸ hj))
    · rcases helos with ⟨_, dE, had⟩ | ⟨_, heq⟩
      · have hgsub : ∀ x ∈ gps, x ∈ p2e := by
          intro x hx
          have hmg' : mapME (listGetE p2e) (List.range nP) = .ok gps := hmg
          obtain ⟨i, _, hfi⟩ := mapME_ok_mem hmg' x hx
          exact get?_mem_of_eq_some (listGetE_ok_iff.1 hfi)
        exact applyDeltasFrom_frame had j (fun hm => hj (hgsub j hm))
      · rw [heq]

/-- The whole fold: the games-counter sum grows by the participant-list
length of each non-failed outcome. -/
theorem foldOutcomes_games_sum {eloFn : List ℚ → List Int → List ℚ}
    {names : List String} {P : Nat} : ∀ {outs : List Outcome} {st st' : PlayState},
    (∀ out ∈ outs, out.winners ≠ [] →
      ∃ p2e, out.player_to_engine = some p2e ∧ p2e.length = P) →
    foldOutcomes eloFn names st outs = .ok st' →
    st'.games.sum = st.games.sum +
      (P : Int) * (outs.countP (fun o => !o.winners.isEmpty) : Int) := by
  intro outs
  induction outs with
  | nil =>
    intro st st' _ h
    cases h
    simp
  | cons out rest ih =>
    intro st st' hval h
    unfold foldOutcomes at h
    rw [List.foldlM_cons] at h
    cases h1 : processOutcome eloFn names st out with
    | error e => rw [h1, error_bind] at h; cases h
    | ok st1 =>
      rw [h1, ok_bind] at h
      have hrest := ih (fun o ho => hval o (List.mem_cons_of_mem _ ho)) h
      by_cases hw : out.winners = []
      · rw [processOutcome_empty _ _ _ _ hw] at h1
        cases h1
        rw [hrest]
        simp [hw, List.countP_cons]
      · obtain ⟨p2e, hp2e, hlen⟩ := hval out (List.mem_cons_self _ _) hw
        obtain ⟨p2e', _, _, games', _, _, _, he1, _, _, hbg, hg, _⟩ :=
          processOutcome_ok_inv h1 hw
        rw [hp2e] at he1
        injection he1 with he1
        subst he1
        have hsum := (bumpAll_ok hbg).1
        rw [hrest, hg, hsum, hlen]
        have hcnt : (out :: rest).countP (fun o => !o.winners.isEmpty)
            = rest.countP (fun o => !o.winners.isEmpty) + 1 := by
          simp [List.countP_cons, hw]
        rw [hcnt]
        push_cast
        ring

/-- The whole fold: an agent appearing in no outcome's participant list
keeps all four of its counters. -/
theorem foldOutcomes_frame {eloFn : List ℚ → List Int → List ℚ}
    {names : List String} {i : Nat} : ∀ {outs : List Outcome} {st st' : PlayState},
    (∀ out ∈ outs, out.winners ≠ [] → ∃ p2e sc,
      out.player_to_engine = some p2e ∧ out.scores = some sc ∧ i ∉ p2e ∧
      (∀ w ∈ out.winners, w ∈ p2e) ∧
      (∀ k s, sc.get? k = some s → k ∉ p2e → s = 0)) →
    foldOutcomes eloFn names st outs = .ok st' →
    st'.games.get? i = st.games.get? i ∧ st'.wins.get? i = st.wins.get? i ∧
    st'.totals.get? i = st.totals.get? i ∧ st'.elos.get? i = st.elos.get? i := by
  intro outs
  induction outs with
  | nil =>
    intro st st' _ h
    cases h
    exact ⟨rfl, rfl, rfl, rfl⟩
  | cons out rest ih =>
    intro st st' hval h
    unfold foldOutcomes at h
    rw [List.foldlM_cons] at h
    cases h1 : processOutcome eloFn names st out with
    | error e => rw [h1, error_bind] at h; cases h
    | ok st1 =>
      rw [h1, ok_bind] at h
      have hrest := ih (fun o ho => hval o (List.mem_cons_of_mem _ ho)) h
      by_cases hw : out.winners = []
      · rw [processOutcome_empty _ _ _ _ hw] at h1
        cases h1
        exact hrest
      · obtain ⟨p2e, sc, hp2e, hsc, hni, hwsub, hscz⟩ :=
          hval out (List.mem_cons_self _ _) hw
        have hstep := processOutcome_frame hp2e hsc hwsub hscz hni h1
        exact ⟨hrest.1.trans hstep.1, hrest.2.1.trans hstep.2.1,
          hrest.2.2.1.trans hstep.2.2.1, hrest.2.2.2.trans hstep.2.2.2⟩

/-! ## Claim theorems -/

/-- C8: `Engine.search(board, seconds)` sets `end_at = now + seconds`
(and the `seconds` field) before `on_search` is invoked — `on_search`
receives the already-updated state — after which `out_of_time()` holds
exactly when the current time is at or past that deadline, and no field
other than the deadline bookkeeping (`end_at`, `seconds`) changes. -/
theorem search_deadline_spec (e : EngineState) (now seconds : Int) (board : β)
    (on_search : EngineState → β → Int → μ) :
    ((search e now board seconds on_search).1.end_at = now + seconds) ∧
    ((search e now board seconds on_search).1.seconds = seconds) ∧
    ((search e now board seconds on_search).1.name = e.name) ∧
    ((search e now board seconds on_search).2
      = on_search (search e now board seconds on_search).1 board seconds) ∧
    (∀ t : Int, out_of_time (search e now board seconds on_search).1 t = true
      ↔ now + seconds ≤ t) := by
  refine ⟨rfl, rfl, rfl, rfl, ?_⟩
  intro t
  simp [out_of_time, search]

/-- C5: every invalid configuration — an empty roster or non-positive
`move_seconds` at construction; non-positive `n_games` or `n_threads`,
`players_per_game` outside 1..4, or a non-positive effective
`move_seconds` at `play` — makes the call raise (return `.error`) with a
message, and in the `play` case the whole setup errors before any job
list is produced. -/
theorem config_validation_spec :
    (∀ (nEngines : Nat) (secs : Int), nEngines < 1 ∨ secs ≤ 0 →
      ∃ msg, tournament_init nEngines secs = .error msg) ∧
    (∀ (default_seconds n_games n_threads players_per_game : Int)
        (move_seconds : Option Int) (perms : List (List Nat)),
      n_games ≤ 0 ∨ n_threads ≤ 0 ∨ players_per_game < 1 ∨ players_per_game > 4 ∨
        move_seconds.getD default_seconds ≤ 0 →
      ∃ msg, playSetup default_seconds n_games n_threads players_per_game
        move_seconds perms = .error msg) := by
  constructor
  · intro n s h
    unfold tournament_init
    rcases h with h | h
    · exact ⟨_, by rw [if_pos h]⟩
    · by_cases hn : n < 1
      · exact ⟨_, by rw [if_pos hn]⟩
      · exact ⟨_, by rw [if_neg hn, if_pos h]⟩
  · intro d g t p ms perms h
    have hpv : ∃ msg, playValidate d g t p ms = .error msg := by
      unfold playValidate
      by_cases h1 : g ≤ 0
      · exact ⟨_, by rw [if_pos h1]⟩
      by_cases h2 : t ≤ 0
      · exact ⟨_, by rw [if_neg h1, if_pos h2]⟩
      by_cases h3 : p < 1 ∨ p > 4
      · exact ⟨_, by rw [if_neg h1, if_neg h2, if_pos h3]⟩
      · have h4 : ms.getD d ≤ 0 := by tauto
        exact ⟨_, by rw [if_neg h1, if_neg h2, if_neg h3]; simp only []; rw [if_pos h4]⟩
    obtain ⟨msg, hmsg⟩ := hpv
    exact ⟨msg, by unfold playSetup; rw [hmsg]; rfl⟩

/-- C5 witness: concrete invalid configurations are rejected. -/
theorem config_validation_spec_witness :
    (∃ msg, tournament_init 0 60 = .error msg) ∧
    (∃ msg, playSetup 60 0 1 4 none [] = .error msg) :=
  ⟨config_validation_spec.1 0 60 (Or.inl (by decide)),
   config_validation_spec.2 60 0 1 4 none [] (Or.inl (by decide))⟩

/-- C6: with roster size `N ≥ 1` and `1 ≤ P ≤ 4`, `P ≤ N`, every generated
match job — a shuffled `range N` truncated to its first `P` entries — has
exactly `P` pairwise-distinct agent indices, all drawn from `0..N-1`;
one job is generated per requested game. -/
theorem job_generation_spec (N P : Nat) (perms : List (List Nat))
    (hN : 1 ≤ N) (hP1 : 1 ≤ P) (hP4 : P ≤ 4) (hPN : P ≤ N)
    (hperm : ∀ perm ∈ perms, perm.Perm (List.range N)) :
    (makeJobs P perms).length = perms.length ∧
    ∀ job ∈ makeJobs P perms,
      job.length = P ∧ job.Nodup ∧ ∀ x ∈ job, x < N := by
  refine ⟨by simp [makeJobs], ?_⟩
  intro job hjob
  obtain ⟨perm, hpm, rfl⟩ := List.mem_map.1 hjob
  have hp := hperm perm hpm
  have hlen : perm.length = N := by
    rw [hp.length_eq, List.length_range]
  refine ⟨?_, ?_, ?_⟩
  · rw [List.length_take, hlen]
    omega
  · exact (List.take_sublist P perm).nodup (hp.nodup_iff.2 (List.nodup_range N))
  · intro x hx
    exact List.mem_range.1 (hp.mem_iff.1 (List.mem_of_mem_take hx))

/-- C6 witness: for `N = 2`, `P = 1` and the shuffle `[1, 0]`, the job
list is one job of one in-range index. -/
theorem job_generation_spec_witness :
    (makeJobs 1 [[1, 0]]).length = [[1, 0]].length ∧
    ∀ job ∈ makeJobs 1 [[1, 0]],
      job.length = 1 ∧ job.Nodup ∧ ∀ x ∈ job, x < 2 :=
  job_generation_spec 2 1 [[1, 0]] (by decide) (by decide) (by decide) (by decide)
    (by
      intro perm hpm
      have : perm = [1, 0] := by simpa using hpm
      subst this
      decide)

/-- C1: `_play_game` never lets an exception escape. (a) If any call in
the game loop raises, `_play_game` returns the failure tuple with an
empty winner list and absent scores. (b) Every returned tuple is either
that failure tuple (also covering exceptions raised while remapping
winners/scores) or a normal outcome read off a finished board. -/
theorem play_game_no_escape (g : GameIface B M) (engines : List (EngineFun B M))
    (nEngines : Nat) (p2e : List Nat) (seconds : Int) (fuel : Nat) (elapsed : Int) :
    (∀ e, gameLoop g engines p2e seconds fuel (g.init p2e.length) = some (.error e) →
      play_game g engines nEngines p2e seconds fuel elapsed = some failOutcome) ∧
    (∀ out, play_game g engines nEngines p2e seconds fuel elapsed = some out →
      out = failOutcome ∨
      ∃ b ws ss, gameLoop g engines p2e seconds fuel (g.init p2e.length) = some (.ok b) ∧
        remapWinners p2e (g.winners b) = .ok ws ∧
        remapScores nEngines p2e (g.scores b) = .ok ss ∧
        out = ⟨ws, some ss, some (g.n_players b), some p2e, some elapsed⟩) := by
  constructor
  · intro e he
    unfold play_game
    rw [he]
  · intro out hout
    unfold play_game at hout
    cases hl : gameLoop g engines p2e seconds fuel (g.init p2e.length) with
    | none => rw [hl] at hout; cases hout
    | some r =>
      rw [hl] at hout
      cases r with
      | error e =>
        injection hout with hout
        exact Or.inl hout.symm
      | ok b =>
        dsimp only at hout
        cases hws : remapWinners p2e (g.winners b) with
        | error e =>
          rw [hws] at hout
          cases hss : remapScores nEngines p2e (g.scores b) with
          | error e2 => rw [hss] at hout; injection hout with hout; exact Or.inl hout.symm
          | ok ss => rw [hss] at hout; injection hout with hout; exact Or.inl hout.symm
        | ok ws =>
          rw [hws] at hout
          cases hss : remapScores nEngines p2e (g.scores b) with
          | error e2 => rw [hss] at hout; injection hout with hout; exact Or.inl hout.symm
          | ok ss =>
            rw [hss] at hout
            injection hout with hout
            exact Or.inr ⟨b, ws, ss, rfl, hws, hss, hout.symm⟩

/-- A one-player demo game over board type `Nat` (the ply counter): the
game finishes after one move, player 0 wins with score 5. -/
def demoIface : GameIface Nat Unit where
  init _ := 0
  finished b := decide (1 ≤ b)
  current_player _ := 0
  push b _ := b + 1
  winners _ := [0]
  scores _ := [5]
  n_players _ := 1
  copy_current_state b := b

/-- An engine whose `search` always raises. -/
def demoRaiseEngine : EngineFun Nat Unit := fun _ _ => .error (.engineError "boom")

/-- An engine whose `search` always returns the unit move. -/
def demoOkEngine : EngineFun Nat Unit := fun _ _ => .ok ()

/-- C1 witness: a raising engine makes `_play_game` return the failure
tuple rather than propagate the exception. -/
theorem play_game_no_escape_witness :
    play_game demoIface [demoRaiseEngine] 1 [0] 30 3 2 = some failOutcome :=
  (play_game_no_escape demoIface [demoRaiseEngine] 1 [0] 30 3 2).1
    (.engineError "boom") rfl

/-- C4: whenever the game loop finishes normally on a board whose local
winner indices are valid and non-empty and whose local score list matches
the participant count, `_play_game` returns a non-empty winner list whose
members all come from `player_to_engine`, and a score list over the full
roster (length `nEngines`) that is zero at every index not in
`player_to_engine`. -/
theorem play_game_success_spec (g : GameIface B M) (engines : List (EngineFun B M))
    (nEngines : Nat) (p2e : List Nat) (seconds : Int) (fuel : Nat) (elapsed : Int)
    (b : B)
    (hloop : gameLoop g engines p2e seconds fuel (g.init p2e.length) = some (.ok b))
    (hw : g.winners b ≠ [])
    (hwlt : ∀ x ∈ g.winners b, x < p2e.length)
    (hslen : (g.scores b).length = p2e.length) :
    ∃ out, play_game g engines nEngines p2e seconds fuel elapsed = some out ∧
      out.winners ≠ [] ∧
      (∀ w ∈ out.winners, w ∈ p2e) ∧
      ∃ ss, out.scores = some ss ∧ ss.length = nEngines ∧
        ∀ i, i < nEngines → i ∉ p2e → ss.get? i = some 0 := by
  obtain ⟨ws, hws, hwlen, hwmem⟩ := remapWinners_ok hwlt
  obtain ⟨ss, hss, hsslen, hssz⟩ := remapScores_ok nEngines hslen
  refine ⟨⟨ws, some ss, some (g.n_players b), some p2e, some elapsed⟩, ?_, ?_, hwmem, ss, rfl, hsslen, hssz⟩
  · unfold play_game
    rw [hloop]
    dsimp only
    rw [hws, hss]
  · intro hnil
    have hnil' : ws = [] := hnil
    rw [hnil'] at hwlen
    exact hw (List.eq_nil_of_length_eq_zero hwlen.symm)

/-- C4 witness: the demo game completes and yields winners `[0] ⊆ [0]`
and the full-roster score list `[5]`. -/
theorem play_game_success_spec_witness :
    ∃ out, play_game demoIface [demoOkEngine] 1 [0] 30 3 2 = some out ∧
      out.winners ≠ [] ∧
      (∀ w ∈ out.winners, w ∈ [0]) ∧
      ∃ ss, out.scores = some ss ∧ ss.length = 1 ∧
        ∀ i, i < 1 → i ∉ [0] → ss.get? i = some 0 :=
  play_game_success_spec demoIface [demoOkEngine] 1 [0] 30 3 2 1
    rfl (by decide) (by decide) (by decide)

/-- A trivial stand-in for the external `compute_elo_adjustment_n`:
returns a zero delta per rated player. -/
def demoEloFn : List ℚ → List Int → List ℚ := fun rs _ => rs.map (fun _ => 0)

def demoNames : List String := ["A", "B", "C"]

/-- A successful two-participant outcome over a three-engine roster:
participants `[0, 1]`, winner `0`, roster-wide scores `[3, 4, 0]`. -/
def demoOut2P : Outcome := ⟨[0], some [3, 4, 0], some 2, some [0, 1], some 7⟩

/-- Success test on an `Except`, used to state concrete witnesses without
forcing evaluation of the rational Elo values inside. -/
def isOkE : Except ε α → Bool
  | .ok _ => true
  | .error _ => false

/-- C2: after the aggregation loop completes over any outcome list in
which every non-failed outcome carries a participant list of length `P`,
the games counters sum to `P` times the number of non-failed outcomes;
and folding an outcome with an empty winner list leaves the entire state
(all counters included) unchanged. -/
theorem standings_sum_spec (eloFn : List ℚ → List Int → List ℚ)
    (names : List String) (N P : Nat) (outs : List Outcome) (st' : PlayState)
    (hvalid : ∀ out ∈ outs, out.winners ≠ [] →
      ∃ p2e, out.player_to_engine = some p2e ∧ p2e.length = P)
    (hfold : foldOutcomes eloFn names (initState N) outs = .ok st') :
    st'.games.sum = (P : Int) * (outs.countP (fun o => !o.winners.isEmpty) : Int) ∧
    ∀ (st : PlayState) (out : Outcome), out.winners = [] →
      processOutcome eloFn names st out = .ok st := by
  constructor
  · have h := foldOutcomes_games_sum hvalid hfold
    rw [h]
    simp [initState]
  · exact fun st out hw => processOutcome_empty eloFn names st out hw

/-- C2 witness: one successful 2-participant game gives `sum games = 2·1`,
and folding the failure tuple is the identity. -/
theorem standings_sum_spec_witness :
    (∃ st', foldOutcomes demoEloFn demoNames (initState 3) [demoOut2P] = .ok st' ∧
      st'.games.sum = (2 : Int) * 1) ∧
    processOutcome demoEloFn demoNames (initState 3) failOutcome = .ok (initState 3) := by
  cases hres : foldOutcomes demoEloFn demoNames (initState 3) [demoOut2P] with
  | error e =>
    have htrue : isOkE (foldOutcomes demoEloFn demoNames (initState 3) [demoOut2P]) = true := by
      decide
    rw [hres] at htrue
    cases htrue
  | ok st' =>
    have h := standings_sum_spec demoEloFn demoNames 3 2 [demoOut2P] st'
      (by
        intro out hout hw
        have heq : out = demoOut2P := by simpa using hout
        subst heq
        exact ⟨[0, 1], rfl, rfl⟩)
      hres
    exact ⟨⟨st', rfl, h.1.trans (by decide)⟩, h.2 (initState 3) failOutcome rfl⟩

/-- C3 (code bug, tournament.py 299-314): a successfully completed
1-participant match is counted, and the Elo branch is skipped as the spec
says — but then `MatchData(...)` reads the loop-locals `player_elos`,
`delta_elos`, `new_elos`, which the skipped branch never assigned, so the
first such match raises `UnboundLocalError` inside `play` instead of
completing normally with that match's record. -/
theorem one_player_match_unbound_local :
    processOutcome demoEloFn ["A"] (initState 1)
      ⟨[0], some [5], some 1, some [0], some 3⟩ = .error .unboundLocal := by
  decide

/-- C7: folding one non-failed outcome leaves every counter of every
non-participant agent unchanged (games, wins, totals, elos), and any Elo
adjustment it performs is an in-place delta application confined to the
match's own participants. -/
theorem fold_frame_spec (eloFn : List ℚ → List Int → List ℚ)
    (names : List String) (st st' : PlayState) (out : Outcome) (j : Nat)
    (p2e : List Nat) (sc : List Int)
    (hp2e : out.player_to_engine = some p2e)
    (hsc : out.scores = some sc)
    (hwsub : ∀ w ∈ out.winners, w ∈ p2e)
    (hscz : ∀ k s, sc.get? k = some s → k ∉ p2e → s = 0)
    (hj : j ∉ p2e)
    (h : processOutcome eloFn names st out = .ok st') :
    (st'.games.get? j = st.games.get? j ∧
     st'.wins.get? j = st.wins.get? j ∧
     st'.totals.get? j = st.totals.get? j ∧
     st'.elos.get? j = st.elos.get? j) ∧
    (st'.elos = st.elos ∨
      ∃ gps dE, (∀ x ∈ gps, x ∈ p2e) ∧
        applyDeltasFrom st.elos dE 0 gps = .ok st'.elos) := by
  refine ⟨processOutcome_frame hp2e hsc hwsub hscz hj h, ?_⟩
  by_cases hw : out.winners = []
  · rw [processOutcome_empty _ _ _ _ hw] at h
    cases h
    exact Or.inl rfl
  · obtain ⟨p2e', _, nP, _, _, _, gps, he1, _, _, _, _, _, _, _, _, hmg, helos, _⟩ :=
      processOutcome_ok_inv h hw
    rw [hp2e] at he1
    injection he1 with he1
    subst he1
    rcases helos with ⟨_, dE, had⟩ | ⟨_, heq⟩
    · refine Or.inr ⟨gps, dE, ?_, had⟩
      intro x hx
      have hmg' : mapME (listGetE p2e) (List.range nP) = .ok gps := hmg
      obtain ⟨i, _, hfi⟩ := mapME_ok_mem hmg' x hx
      exact get?_mem_of_eq_some (listGetE_ok_iff.1 hfi)
    · exact Or.inl heq

/-- C7 witness: agent 2 is untouched by the fold of the 2-participant
demo outcome. -/
theorem fold_frame_spec_witness :
    ∃ st', processOutcome demoEloFn demoNames (initState 3) demoOut2P = .ok st' ∧
      st'.games.get? 2 = some 0 ∧ st'.wins.get? 2 = some 0 ∧
      st'.totals.get? 2 = some 0 ∧ st'.elos.get? 2 = some 0 := by
  cases hres : processOutcome demoEloFn demoNames (initState 3) demoOut2P with
  | error e =>
    have htrue : isOkE (processOutcome demoEloFn demoNames (initState 3) demoOut2P) = true := by
      decide
    rw [hres] at htrue
    cases htrue
  | ok st' =>
    have frames := fold_frame_spec demoEloFn demoNames (initState 3) st' demoOut2P 2
      [0, 1] [3, 4, 0] rfl rfl (by decide)
      (by
        intro k s hk hm
        obtain _ | _ | _ | n := k
        · exact absurd (by decide) hm
        · exact absurd (by decide) hm
        · simp at hk
          omega
        · exact Option.noConfusion hk)
      (by decide) hres
    exact ⟨st', rfl, frames.1.1.trans (by rfl), frames.1.2.1.trans (by rfl),
      frames.1.2.2.1.trans (by rfl), frames.1.2.2.2.trans (by rfl)⟩

/-- C9: the derived statistics divide by `max(1, count)`, which is always
at least 1 (never zero); an agent that participated in no aggregated
outcome has `games = 0` and reports win rate 0 and average score 0 (both
through all four accessors); a tournament with no completed matches
divides its duration by 1. -/
theorem zero_games_stats_spec (eloFn : List ℚ → List Int → List ℚ)
    (names : List String) (N : Nat) (outs : List Outcome) (st' : PlayState)
    (initElos : List ℚ) (rt : Int) (i : Nat)
    (hn : names.length = N)
    (hi : i < N)
    (hfold : foldOutcomes eloFn names (initState N) outs = .ok st')
    (hval : ∀ out ∈ outs, out.winners ≠ [] → ∃ p2e sc,
      out.player_to_engine = some p2e ∧ out.scores = some sc ∧ i ∉ p2e ∧
      (∀ w ∈ out.winners, w ∈ p2e) ∧
      (∀ k s, sc.get? k = some s → k ∉ p2e → s = 0)) :
    ((mkResults st' names initElos rt).game_counts.getD i 0 = 0 ∧
     (win_rates (mkResults st' names initElos rt)).getD i 1 = 0 ∧
     (avg_scores (mkResults st' names initElos rt)).getD i 1 = 0 ∧
     get_win_rate_by_engine (mkResults st' names initElos rt) i = 0 ∧
     get_avg_score_by_engine (mkResults st' names initElos rt) i = 0) ∧
    (∀ (r : TournamentResults) (k : Nat),
      (0 : Int) < max 1 (r.game_counts.getD k 0)) ∧
    (∀ (r : TournamentResults), total_games r = 0 →
      average_match_duration r = (r.total_time : ℚ) / 1) := by
  obtain ⟨hg, hw, ht, _⟩ := foldOutcomes_frame hval hfold
  have hg0 : st'.games.get? i = some 0 := by
    rw [hg]
    simp [initState, List.get?_eq_getElem?, List.getElem?_replicate, hi]
  have hw0 : st'.wins.get? i = some 0 := by
    rw [hw]
    simp [initState, List.get?_eq_getElem?, List.getElem?_replicate, hi]
  have ht0 : st'.totals.get? i = some 0 := by
    rw [ht]
    simp [initState, List.get?_eq_getElem?, List.getElem?_replicate, hi]
  have hg0' : st'.games[i]? = some 0 := by rw [← List.get?_eq_getElem?]; exact hg0
  have hw0' : st'.wins[i]? = some 0 := by rw [← List.get?_eq_getElem?]; exact hw0
  have ht0' : st'.totals[i]? = some 0 := by rw [← List.get?_eq_getElem?]; exact ht0
  have hgD : st'.games.getD i 0 = 0 := by rw [List.getD_eq_get?, hg0]; rfl
  have hTE : total_engines (mkResults st' names initElos rt) = N := hn
  refine ⟨⟨hgD, ?_, ?_, ?_, ?_⟩, ?_, ?_⟩
  · rw [List.getD_eq_get?]
    unfold win_rates
    rw [List.get?_map, hTE, List.get?_range hi]
    simp [mkResults, hw0', hg0']
  · rw [List.getD_eq_get?]
    unfold avg_scores
    rw [List.get?_map, hTE, List.get?_range hi]
    simp [mkResults, ht0', hg0']
  · unfold get_win_rate_by_engine
    simp [mkResults, hw0', hg0']
  · unfold get_avg_score_by_engine
    simp [mkResults, ht0', hg0']
  · intro r k
    have := le_max_left (1 : Int) (r.game_counts.getD k 0)
    omega
  · intro r h0
    unfold average_match_duration
    rw [h0]
    norm_num

/-- C9 witness: agent 2 of the demo tournament played zero games and
reports zero rates; the totality facts at a concrete record. -/
theorem zero_games_stats_spec_witness :
    ∃ st', foldOutcomes demoEloFn demoNames (initState 3) [demoOut2P] = .ok st' ∧
      (mkResults st' demoNames [0, 0, 0] 9).game_counts.getD 2 0 = 0 ∧
      (win_rates (mkResults st' demoNames [0, 0, 0] 9)).getD 2 1 = 0 ∧
      (avg_scores (mkResults st' demoNames [0, 0, 0] 9)).getD 2 1 = 0 ∧
      get_win_rate_by_engine (mkResults st' demoNames [0, 0, 0] 9) 2 = 0 ∧
      get_avg_score_by_engine (mkResults st' demoNames [0, 0, 0] 9) 2 = 0 := by
  cases hres : foldOutcomes demoEloFn demoNames (initState 3) [demoOut2P] with
  | error e =>
    have htrue : isOkE (foldOutcomes demoEloFn demoNames (initState 3) [demoOut2P]) = true := by
      decide
    rw [hres] at htrue
    cases htrue
  | ok st' =>
    have h := zero_games_stats_spec demoEloFn demoNames 3 [demoOut2P] st' [0, 0, 0] 9 2
      rfl (by decide) hres
      (by
        intro out hout hw
        have heq : out = demoOut2P := by simpa using hout
        subst heq
        refine ⟨[0, 1], [3, 4, 0], rfl, rfl, by decide, by decide, ?_⟩
        intro k s hk hm
        obtain _ | _ | _ | n := k
        · exact absurd (by decide) hm
        · exact absurd (by decide) hm
        · simp at hk
          omega
        · exact Option.noConfusion hk)
    exact ⟨st', rfl, h.1.1, h.1.2.1, h.1.2.2.1, h.1.2.2.2.1, h.1.2.2.2.2⟩

/-- The rankings display never mutates the record: the returned record is
the input record, in every branch. -/
theorem display_snd (r : TournamentResults) (s d : String) :
    (get_engine_rankings_display r s d).2 = r := by
  unfold get_engine_rankings_display
  cases hA : getattrModel r s with
  | none => rfl
  | some a =>
    dsimp only
    by_cases h1 : ¬ isListAttr a = true ∨ attrLen a = 0
    · rw [if_pos h1]
    · rw [if_neg h1]
      cases hk : numericKeys a with
      | none => rfl
      | some keys =>
        dsimp only
        by_cases h2 : d ≠ "asc" ∧ d ≠ "desc"
        · rw [if_pos h2]
        · rw [if_neg h2]

/-- C10: for every bad `sort_by` (unknown attribute, non-list attribute,
empty list, non-numeric list) or bad `sort_dir`,
`get_engine_rankings_display` returns one of the four descriptive error
strings instead of raising, and the record is returned unchanged. -/
theorem rankings_display_error_spec (r : TournamentResults) (s d : String)
    (h : getattrModel r s = none ∨
      (∃ a, getattrModel r s = some a ∧
        (isListAttr a = false ∨ attrLen a = 0 ∨ numericKeys a = none)) ∨
      (d ≠ "asc" ∧ d ≠ "desc")) :
    (get_engine_rankings_display r s d).2 = r ∧
    ((get_engine_rankings_display r s d).1 = invalidFieldMsg1 s ∨
     (get_engine_rankings_display r s d).1 = invalidFieldMsg2 s ∨
     (get_engine_rankings_display r s d).1 = invalidFieldMsg3 s ∨
     (get_engine_rankings_display r s d).1 = invalidDirMsg d) := by
  refine ⟨display_snd r s d, ?_⟩
  unfold get_engine_rankings_display
  cases hA : getattrModel r s with
  | none => exact Or.inl rfl
  | some a =>
    dsimp only
    by_cases h1 : ¬ isListAttr a = true ∨ attrLen a = 0
    · rw [if_pos h1]
      exact Or.inr (Or.inl rfl)
    · rw [if_neg h1]
      cases hk : numericKeys a with
      | none => exact Or.inr (Or.inr (Or.inl rfl))
      | some keys =>
        dsimp only
        by_cases h2 : d ≠ "asc" ∧ d ≠ "desc"
        · rw [if_pos h2]
          exact Or.inr (Or.inr (Or.inr rfl))
        · exfalso
          rcases h with hA' | ⟨a', ha', hbad⟩ | hd
          · rw [hA] at hA'
            cases hA'
          · rw [hA] at ha'
            injection ha' with ha'
            subst ha'
            rcases hbad with hb | hb | hb
            · exact h1 (Or.inl (by simp [hb]))
            · exact h1 (Or.inr hb)
            · rw [hk] at hb
              cases hb
          · exact h2 hd

/-- A small concrete results record for the display witness. -/
def demoResults : TournamentResults :=
  ⟨[], ["A"], [0], [0], [0], [0], [0], 5, 0⟩

/-- C10 witness: an unknown sort field yields the first error message and
the unchanged record. -/
theorem rankings_display_error_spec_witness :
    (get_engine_rankings_display demoResults "games_played" "desc").2 = demoResults ∧
    ((get_engine_rankings_display demoResults "games_played" "desc").1
        = invalidFieldMsg1 "games_played" ∨
     (get_engine_rankings_display demoResults "games_played" "desc").1
        = invalidFieldMsg2 "games_played" ∨
     (get_engine_rankings_display demoResults "games_played" "desc").1
        = invalidFieldMsg3 "games_played" ∨
     (get_engine_rankings_display demoResults "games_played" "desc").1
        = invalidDirMsg "desc") :=
  rankings_display_error_spec demoResults "games_played" "desc" (Or.inl (by decide))

end Tilewe
